import Mathlib

/-!
# Verification of `inventory_system.py`

A shallow embedding of the inventory module: a global dict `stock_data`
mapping item names to quantities, with operations `add_item`, `remove_item`,
`get_qty`, `load_data`, `save_data`, `print_data`, `check_low_items`.

Modelling choices:

* Python values that can flow through these functions are modelled by the
  closed universe `PyVal` (ints, floats, strings, `None`).  Floats are
  modelled as exact rationals (no claim here depends on rounding).
* A Python `dict` is an insertion-ordered association list with unique keys;
  the uniqueness invariant is carried as a `Nodup` hypothesis where a proof
  needs it.  `dictGet`/`dictSet`/`dictDel` mirror `d[k]` read, write and
  `del`.
* A Python exception that the source does **not** catch is modelled by the
  operation returning `none`; caught exceptions follow the source's handler.
* Console output (`print`) is modelled by the list of emitted message
  strings; the wall-clock timestamp prefix of add's log entry is passed in
  as an explicit `now` argument since it comes from the environment.
* File persistence: `json.dump`/`json.load` of the standard library are
  trusted and modelled at the JSON-object level: a file holds the ordered
  key/value list that was serialized, and `json.load` rebuilds a fresh dict
  from it by inserting the entries in order (`dictReplay`).  The file system
  is an association list from path to content, initially empty, so `load`
  of a never-written path takes the `FileNotFoundError` branch.
-/

/-- The universe of Python values flowing through the module: integers,
floats (exact rationals), strings, and `None`. -/
inductive PyVal where
  | pint (n : Int)
  | pfloat (q : ℚ)
  | pstr (s : String)
  | pnone
deriving DecidableEq, Repr

namespace PyVal

/-- Python truthiness (`bool(v)`) on the modelled universe. -/
def truthy : PyVal → Bool
  | pint n => n ≠ 0
  | pfloat q => q ≠ 0
  | pstr s => s ≠ ""
  | pnone => false

/-- Python `isinstance(v, str)`. -/
def isStr : PyVal → Bool
  | pstr _ => true
  | _ => false

/-- Python `isinstance(v, int)`. -/
def isInt : PyVal → Bool
  | pint _ => true
  | _ => false

/-- Python `str(v)`, as used by f-string interpolation in the messages. -/
def pyStrOf : PyVal → String
  | pint n => toString n
  | pfloat q => toString q
  | pstr s => s
  | pnone => "None"

/-- The numeric value of `v`, when `v` is a number. -/
def pyNumOf : PyVal → Option ℚ
  | pint n => some (n : ℚ)
  | pfloat q => some q
  | _ => none

/-- Python `v + n` for an integer `n` (`TypeError` = `none`):
int stays int, float stays float. -/
def pyAddInt : PyVal → Int → Option PyVal
  | pint a, n => some (pint (a + n))
  | pfloat a, n => some (pfloat (a + n))
  | _, _ => none

/-- Python `a - b` (`TypeError` = `none`): int−int is int, any float
operand makes the result float, anything else raises. -/
def pySub : PyVal → PyVal → Option PyVal
  | pint a, pint b => some (pint (a - b))
  | pint a, pfloat b => some (pfloat ((a : ℚ) - b))
  | pfloat a, pint b => some (pfloat (a - (b : ℚ)))
  | pfloat a, pfloat b => some (pfloat (a - b))
  | _, _ => none

/-- Python `v <= 0` (`TypeError` = `none`). -/
def pyLeZero : PyVal → Option Bool
  | pint a => some (a ≤ 0)
  | pfloat a => some (a ≤ 0)
  | _ => none

/-- Python `v < t` against an integer threshold (`TypeError` = `none`). -/
def pyLtInt : PyVal → Int → Option Bool
  | pint a, t => some (a < t)
  | pfloat a, t => some (a < (t : ℚ))
  | _, _ => none

end PyVal

open PyVal

/-- A Python dict with string keys: insertion-ordered association list.
Real dicts never hold two entries for one key; that uniqueness is the
`(dictKeys d).Nodup` hypothesis in the lemmas that need it. -/
abbrev Store := List (String × PyVal)

/-- Read `d.get(k)` / `d[k]`: first (and in a real dict, only) binding. -/
def dictGet {α : Type} : List (String × α) → String → Option α
  | [], _ => none
  | (k, v) :: rest, key => if k = key then some v else dictGet rest key

/-- Write `d[k] = v`: update in place when the key exists, else append (Python
dicts keep insertion order, and re-assigning keeps the old position). -/
def dictSet {α : Type} : List (String × α) → String → α → List (String × α)
  | [], key, val => [(key, val)]
  | (k, v) :: rest, key, val =>
    if k = key then (k, val) :: rest else (k, v) :: dictSet rest key val

/-- Delete `del d[k]`: drop the binding of `key`. -/
def dictDel {α : Type} : List (String × α) → String → List (String × α)
  | [], _ => []
  | (k, v) :: rest, key => if k = key then rest else (k, v) :: dictDel rest key

/-- Membership `k in d`. -/
def dictHasKey {α : Type} : List (String × α) → String → Bool
  | [], _ => false
  | (k, _) :: rest, key => k = key || dictHasKey rest key

/-- Keys `list(d.keys())`, in iteration (= insertion) order. -/
def dictKeys {α : Type} (d : List (String × α)) : List String :=
  d.map Prod.fst

/-- The log line `f"{datetime.now()}: Added {qty} of {item}"`; `now` is the
wall-clock string supplied by the environment. -/
def addLogMsg (now : String) (qty : Int) (item : String) : String :=
  now ++ ": Added " ++ toString qty ++ " of " ++ item

/-- Message `f"Warning: Item not found"` with the item interpolated. -/
def warnNotFoundMsg (item : PyVal) : String :=
  "Warning: Item '" ++ pyStrOf item ++ "' not found in inventory"

/-- Message `f"Error removing item ..."` for the `TypeError` raised by
`stock_data[item] -= qty` on incompatible operands. -/
def errRemovingMsg (item : PyVal) : String :=
  "Error removing item '" ++ pyStrOf item ++
    "': unsupported operand type(s) for -="

/-- Message `f"Warning: File not found"` with the path interpolated. -/
def warnFileNotFoundMsg (file : String) : String :=
  "Warning: File '" ++ file ++ "' not found. Starting with empty inventory."

/-- Source `add_item(item, qty, logs)`.  Validation: a falsy or non-`str` item, or
a non-`int` or negative qty, returns without touching anything (the
`logs is None` branch only replaces a missing sink by a fresh list, so the
caller-visible sink is modelled by `logs` directly).  On success the entry
is created/incremented and one log line is appended.  `none` models the
uncaught `TypeError` of `stock_data.get(item, 0) + qty` on a non-numeric
stored value. -/
def add_item (now : String) (item qty : PyVal) (logs : List String)
    (stock_data : Store) : Option (Store × List String) :=
  match item with
  | pstr s =>
    if s = "" then some (stock_data, logs)
    else
      match qty with
      | pint n =>
        if n < 0 then some (stock_data, logs)
        else
          match pyAddInt ((dictGet stock_data s).getD (pint 0)) n with
          | none => none
          | some v =>
            some (dictSet stock_data s v, logs ++ [addLogMsg now n s])
      | _ => some (stock_data, logs)
  | _ => some (stock_data, logs)

/-- Source `remove_item(item, qty)`: warn and return when the item is not a key;
otherwise `stock_data[item] -= qty` (a `TypeError` is caught and reported,
leaving the store as it was), then delete the entry when the new value
is `<= 0`.  Returns the new store and the printed messages.  (A `TypeError`
of the `<= 0` comparison would also be caught — after the write; on the
modelled universe a successful subtraction is always numeric, so that
branch returns the already-written store, faithfully to the source.) -/
def remove_item (item qty : PyVal) (stock_data : Store) :
    Store × List String :=
  match item with
  | pstr s =>
    if ¬ dictHasKey stock_data s then (stock_data, [warnNotFoundMsg item])
    else
      match pySub ((dictGet stock_data s).getD pnone) qty with
      | none => (stock_data, [errRemovingMsg item])
      | some v =>
        let d := dictSet stock_data s v
        match pyLeZero v with
        | none => (d, [errRemovingMsg item])
        | some true => (dictDel d s, [])
        | some false => (d, [])
  | _ => (stock_data, [warnNotFoundMsg item])

/-- Source `get_qty(item)`: `stock_data.get(item, 0)` — the stored value when the
item is a present key, `0` otherwise.  Total by construction. -/
def get_qty (item : PyVal) (stock_data : Store) : PyVal :=
  match item with
  | pstr s => (dictGet stock_data s).getD (pint 0)
  | _ => pint 0

/-- The file system: path ↦ the JSON object stored there, as the ordered
key/value list the standard library serialized.  Initially empty. -/
abbrev FileSys := List (String × Store)

/-- Parsing `json.load`: build a fresh dict by inserting the file's entries in
order (last occurrence of a duplicated key would win, as in Python). -/
def dictReplay (file : Store) : Store :=
  file.foldl (fun d p => dictSet d p.1 p.2) []

/-- Source `load_data(file)`: replace the store wholly by the parsed file; on a
missing file, warn and reset to empty.  (The `json.JSONDecodeError` branch
concerns text that the trusted serializer never produces, so it does not
appear at this level of the model.) -/
def load_data (file : String) (fs : FileSys) : Store × List String :=
  match dictGet fs file with
  | none => ([], [warnFileNotFoundMsg file])
  | some content => (dictReplay content, [])

/-- Source `save_data(file)`: serialize the whole mapping to the file; the store
itself is untouched.  (The `IOError` handler concerns faults of the host
file system, which the model's total store cannot raise.) -/
def save_data (file : String) (stock_data : Store) (fs : FileSys) :
    FileSys × List String :=
  (dictSet fs file stock_data, [])

/-- Source `print_data()`: the report lines — a header then `"item -> qty"` per
entry in iteration order.  Pure observation. -/
def print_data (stock_data : Store) : List String :=
  "Items Report" :: stock_data.map fun p => p.1 ++ " -> " ++ pyStrOf p.2

/-- Source `check_low_items(threshold)`: the loop appending, in iteration order,
every key whose value compares `< threshold`; `none` models the uncaught
`TypeError` of comparing a non-numeric stored value. -/
def check_low_items (threshold : Int) : Store → Option (List String)
  | [] => some []
  | (k, v) :: rest =>
    match pyLtInt v threshold with
    | none => none
    | some true => (check_low_items threshold rest).map (k :: ·)
    | some false => check_low_items threshold rest

/-! ## The closed system of operations (for reachability claims)

A run of the module: the global `stock_data` plus the file system, driven
by a sequence of `add_item` / `remove_item` / `load_data` / `save_data`
calls.  `add`'s log sink and timestamp do not influence the store, so the
step passes fixed ones. -/

/-- Combined mutable state: the global store and the file system. -/
structure Sys where
  store : Store
  fs : FileSys
deriving DecidableEq, Repr

/-- One call of a mutating operation, with its Python-level arguments. -/
inductive Op where
  | add (item qty : PyVal)
  | remove (item qty : PyVal)
  | load (file : String)
  | save (file : String)
deriving DecidableEq, Repr

/-- Execute one operation (`none` = the call raised an uncaught error). -/
def step (sys : Sys) : Op → Option Sys
  | Op.add item qty =>
    (add_item "" item qty [] sys.store).map fun r => { sys with store := r.1 }
  | Op.remove item qty =>
    some { sys with store := (remove_item item qty sys.store).1 }
  | Op.load file =>
    some { sys with store := (load_data file sys.fs).1 }
  | Op.save file =>
    some { sys with fs := (save_data file sys.store sys.fs).1 }

/-- The initial state: empty store, no files written yet. -/
def initSys : Sys := { store := [], fs := [] }

/-- Run a sequence of operations from the initial state. -/
def run (ops : List Op) : Option Sys :=
  ops.foldlM step initSys

/-- Predicate: `v` is a non-negative integer quantity. -/
def nonnegIntVal : PyVal → Bool
  | pint n => 0 ≤ n
  | _ => false

/-- Predicate: `v` is a strictly positive integer quantity. -/
def posIntVal : PyVal → Bool
  | pint n => 0 < n
  | _ => false

/-- Every entry of the store holds a non-negative integer. -/
def goodStore (s : Store) : Bool :=
  s.all fun p => nonnegIntVal p.2

/-- Every entry of the store holds a strictly positive integer. -/
def strictPosStore (s : Store) : Bool :=
  s.all fun p => posIntVal p.2

/-- Every file on disk holds only non-negative integers. -/
def goodFS (fs : FileSys) : Bool :=
  fs.all fun p => goodStore p.2

/-- Guard: `remove` called with a float quantity is the one operation that can
make a quantity fractional; all other calls are unrestricted. -/
def removeQtyNotFloat : Op → Bool
  | Op.remove _ (pfloat _) => false
  | _ => true

/-! ## Dictionary lemmas -/

theorem dictGet_dictSet_self {α : Type} (d : List (String × α)) (k : String)
    (v : α) : dictGet (dictSet d k v) k = some v := by
  induction d with
  | nil => simp [dictSet, dictGet]
  | cons p rest ih =>
    obtain ⟨k1, v1⟩ := p
    by_cases h : k1 = k <;> simp [dictSet, dictGet, h, ih]

theorem dictHasKey_eq_isSome {α : Type} (d : List (String × α)) (k : String) :
    dictHasKey d k = (dictGet d k).isSome := by
  induction d with
  | nil => simp [dictHasKey, dictGet]
  | cons p rest ih =>
    obtain ⟨k1, v1⟩ := p
    by_cases h : k1 = k <;> simp [dictHasKey, dictGet, h, ih]

theorem dictSet_of_not_hasKey {α : Type} (d : List (String × α)) (k : String)
    (v : α) (h : dictHasKey d k = false) : dictSet d k v = d ++ [(k, v)] := by
  induction d with
  | nil => simp [dictSet]
  | cons p rest ih =>
    obtain ⟨k1, v1⟩ := p
    simp only [dictHasKey, Bool.or_eq_false_iff, decide_eq_false_iff_not] at h
    simp [dictSet, h.1, ih h.2]

theorem dictDel_dictSet {α : Type} (d : List (String × α)) (k : String)
    (v : α) : dictDel (dictSet d k v) k = dictDel d k := by
  induction d with
  | nil => simp [dictSet, dictDel]
  | cons p rest ih =>
    obtain ⟨k1, v1⟩ := p
    by_cases h : k1 = k <;> simp [dictSet, dictDel, h, ih]

theorem dictGet_dictDel_self {α : Type} (d : List (String × α)) (k : String)
    (hnd : (dictKeys d).Nodup) : dictGet (dictDel d k) k = none := by
  induction d with
  | nil => simp [dictDel, dictGet]
  | cons p rest ih =>
    obtain ⟨k1, v1⟩ := p
    simp only [dictKeys, List.map_cons, List.nodup_cons] at hnd
    by_cases h : k1 = k
    · subst h
      simp only [dictDel, if_pos rfl]
      cases hg : dictGet rest k1 with
      | none => exact hg
      | some w =>
        exfalso
        apply hnd.1
        clear ih hnd
        induction rest with
        | nil => simp [dictGet] at hg
        | cons q tl ih2 =>
          obtain ⟨k2, v2⟩ := q
          by_cases h2 : k2 = k1
          · simp [h2]
          · simp only [dictGet, if_neg h2] at hg
            simp [ih2 hg]
    · simp [dictDel, dictGet, h, ih hnd.2]

/-! ## Claim theorems -/

/-- C8: `get_qty` is total — it is a plain function into `PyVal`, not an
`Option` (no modelled exception) — and it returns the stored quantity when
the item is a present key of the store, and `0` when the item is absent or
not a string key at all. -/
theorem c8_get_qty_total (item : PyVal) (s : Store) :
    (∀ k, item = pstr k → ∀ v, dictGet s k = some v → get_qty item s = v) ∧
    (∀ k, item = pstr k → dictGet s k = none → get_qty item s = pint 0) ∧
    (item.isStr = false → get_qty item s = pint 0) := by
  refine ⟨?_, ?_, ?_⟩
  · rintro k rfl v hv
    simp [get_qty, hv]
  · rintro k rfl hv
    simp [get_qty, hv]
  · intro h
    cases item <;> simp_all [get_qty, isStr]

/-- Witness for C8 at a present key. -/
theorem c8_get_qty_total_witness :
    get_qty (pstr "a") [("a", pint 3)] = pint 3 :=
  (c8_get_qty_total (pstr "a") [("a", pint 3)]).1 "a" rfl (pint 3) rfl

/-- C6: an invalid `add_item` call — the item not a non-empty string, or
the quantity not an integer or negative — returns normally with the store
and the caller's log sink both exactly as they were. -/
theorem c6_invalid_add_noop (now : String) (item qty : PyVal)
    (logs : List String) (s : Store)
    (h : (¬ ∃ k, item = pstr k ∧ k ≠ "") ∨ ¬ ∃ n, qty = pint n ∧ 0 ≤ n) :
    add_item now item qty logs s = some (s, logs) := by
  cases item with
  | pstr k =>
    by_cases hk : k = ""
    · simp [add_item, hk]
    · rcases h with h | h
      · exact absurd ⟨k, rfl, hk⟩ h
      · cases qty with
        | pint n =>
          have hn : n < 0 := by
            by_contra hge
            exact h ⟨n, rfl, le_of_not_lt hge⟩
          simp [add_item, hk, hn]
        | pfloat q => simp [add_item, hk]
        | pstr t => simp [add_item, hk]
        | pnone => simp [add_item, hk]
  | pint n => simp [add_item]
  | pfloat q => simp [add_item]
  | pnone => simp [add_item]

/-- Witness for C6: the rejected call `add_item(123, "ten")` from the
source's own driver. -/
theorem c6_invalid_add_noop_witness :
    add_item "" (pint 123) (pstr "ten") [] [] = some ([], []) :=
  c6_invalid_add_noop "" (pint 123) (pstr "ten") [] []
    (Or.inl (by rintro ⟨k, hk, -⟩; cases hk))

/-- C2: a valid `add_item` call — non-empty string item, integer `q ≥ 0` —
succeeds and raises `get_qty` of that item by exactly `q` over its prior
numeric value; when the item was absent, the entry is created at `q`. -/
theorem c2_add_increments (now : String) (k : String) (hk : k ≠ "")
    (q : Int) (hq : 0 ≤ q) (logs : List String) (s : Store) (before : ℚ)
    (hbefore : pyNumOf (get_qty (pstr k) s) = some before) :
    ∃ s2 logs2, add_item now (pstr k) (pint q) logs s = some (s2, logs2) ∧
      pyNumOf (get_qty (pstr k) s2) = some (before + q) ∧
      (dictGet s k = none → dictGet s2 k = some (pint q)) := by
  have hq' : ¬ q < 0 := not_lt.mpr hq
  cases hv : dictGet s k with
  | none =>
    refine ⟨dictSet s k (pint (0 + q)), logs ++ [addLogMsg now q k], ?_, ?_, ?_⟩
    · simp [add_item, hk, hq', hv, pyAddInt]
    · simp only [get_qty, hv, Option.getD_none, pyNumOf,
        Option.some_inj] at hbefore
      simp only [get_qty, dictGet_dictSet_self, Option.getD_some, pyNumOf,
        Option.some_inj, ← hbefore]
      push_cast
      ring
    · intro
      simp [dictGet_dictSet_self]
  | some v =>
    simp only [get_qty, hv, Option.getD_some] at hbefore
    cases v with
    | pint a =>
      refine ⟨dictSet s k (pint (a + q)), logs ++ [addLogMsg now q k], ?_, ?_, ?_⟩
      · simp [add_item, hk, hq', hv, pyAddInt]
      · simp only [get_qty, dictGet_dictSet_self, Option.getD_some]
        simp only [pyNumOf] at hbefore ⊢
        simp [← Option.some_inj.mp hbefore]
      · intro hnone
        simp at hnone
    | pfloat r =>
      refine ⟨dictSet s k (pfloat (r + q)), logs ++ [addLogMsg now q k], ?_, ?_, ?_⟩
      · simp [add_item, hk, hq', hv, pyAddInt]
      · simp only [get_qty, dictGet_dictSet_self, Option.getD_some]
        simp only [pyNumOf] at hbefore ⊢
        simp [← Option.some_inj.mp hbefore]
      · intro hnone
        simp at hnone
    | pstr t => simp [pyNumOf] at hbefore
    | pnone => simp [pyNumOf] at hbefore

/-- Witness for C2: adding 5 apples to a store holding 2 yields 7. -/
theorem c2_add_increments_witness :
    ∃ s2 logs2,
      add_item "" (pstr "apple") (pint 5) [] [("apple", pint 2)] =
        some (s2, logs2) ∧
      pyNumOf (get_qty (pstr "apple") s2) = some ((2 : ℚ) + (5 : Int)) ∧
      (dictGet [("apple", pint 2)] "apple" = none →
        dictGet s2 "apple" = some (pint 5)) :=
  c2_add_increments "" "apple" (by decide) 5 (by decide) [] [("apple", pint 2)]
    2 rfl

/-- C7: when the item is a present key but the quantity's type makes the
subtraction `stock_data[item] -= qty` raise (`pySub` has no value),
`remove_item` catches the fault, leaves the store exactly as it was, and
emits the single error message that interpolates the item name. -/
theorem c7_remove_bad_qty_atomic (k : String) (v qty : PyVal) (s : Store)
    (hmem : dictGet s k = some v) (hfail : pySub v qty = none) :
    remove_item (pstr k) qty s = (s, [errRemovingMsg (pstr k)]) := by
  have hhas : dictHasKey s k = true := by
    rw [dictHasKey_eq_isSome, hmem]
    rfl
  simp [remove_item, hhas, hmem, hfail]

/-- Witness for C7: removing a string quantity `"x"` from `{a: 5}`. -/
theorem c7_remove_bad_qty_atomic_witness :
    remove_item (pstr "a") (pstr "x") [("a", pint 5)] =
      ([("a", pint 5)], [errRemovingMsg (pstr "a")]) :=
  c7_remove_bad_qty_atomic "a" (pint 5) (pstr "x") [("a", pint 5)] rfl rfl

theorem dictHasKey_iff_mem_keys {α : Type} (d : List (String × α))
    (k : String) : dictHasKey d k = true ↔ k ∈ dictKeys d := by
  induction d with
  | nil => simp [dictHasKey, dictKeys]
  | cons p rest ih =>
    obtain ⟨k1, v1⟩ := p
    by_cases h : k1 = k
    · subst h
      simp [dictHasKey, dictKeys]
    · have h2 : ¬ k = k1 := fun hh => h hh.symm
      simp [dictHasKey, dictKeys, h, h2, ih]

/-- C4: on a store whose values are all numeric (the only stores on which
the Python loop completes), `check_low_items t` returns precisely the keys
of the entries whose value is `< t`, in the store's iteration order — the
filter of the entry list — and, being a pure observation, it returns no
modified store. -/
theorem c4_check_low_items_filter (t : Int) (s : Store)
    (h : ∀ p ∈ s, (pyNumOf p.2).isSome = true) :
    check_low_items t s =
      some ((s.filter fun p => pyLtInt p.2 t == some true).map Prod.fst) := by
  induction s with
  | nil => simp [check_low_items]
  | cons p rest ih =>
    obtain ⟨k, v⟩ := p
    have hv := h (k, v) (List.mem_cons_self _ _)
    have hrest : ∀ q ∈ rest, (pyNumOf q.2).isSome = true := fun q hq =>
      h q (List.mem_cons_of_mem _ hq)
    cases v with
    | pint a =>
      by_cases hb : a < t <;>
        simp [check_low_items, pyLtInt, hb, ih hrest]
    | pfloat r =>
      by_cases hb : r < (t : ℚ) <;>
        simp [check_low_items, pyLtInt, hb, ih hrest]
    | pstr u => simp [pyNumOf] at hv
    | pnone => simp [pyNumOf] at hv

/-- Witness for C4: the spec's own example `{apple: 3, banana: 10}`,
threshold 5. -/
theorem c4_check_low_items_filter_witness :
    check_low_items 5 [("apple", pint 3), ("banana", pint 10)] =
      some ((([("apple", pint 3), ("banana", pint 10)] : Store).filter
        fun p => pyLtInt p.2 5 == some true).map Prod.fst) :=
  c4_check_low_items_filter 5 [("apple", pint 3), ("banana", pint 10)]
    (by decide)

/-- C5: removing at least the held quantity (an integer `q` with
`get_qty(item) ≤ q`) leaves the item absent: its key is gone from the dict
and `get_qty` then answers `0`.  Covers both the already-absent case (the
warning branch) and the subtraction branch, whose non-positive result
triggers the `del`. -/
theorem c5_remove_all_absent (k : String) (q : Int) (s : Store)
    (hnd : (dictKeys s).Nodup) (cur : ℚ)
    (hcur : pyNumOf (get_qty (pstr k) s) = some cur) (hq : cur ≤ (q : ℚ)) :
    dictGet (remove_item (pstr k) (pint q) s).1 k = none ∧
    get_qty (pstr k) (remove_item (pstr k) (pint q) s).1 = pint 0 := by
  cases hv : dictGet s k with
  | none =>
    have hhas : dictHasKey s k = false := by
      rw [dictHasKey_eq_isSome, hv]
      rfl
    refine ⟨?_, ?_⟩ <;> simp [remove_item, hhas, hv, get_qty]
  | some v =>
    have hhas : dictHasKey s k = true := by
      rw [dictHasKey_eq_isSome, hv]
      rfl
    simp only [get_qty, hv, Option.getD_some] at hcur
    cases v with
    | pint a =>
      have ha : a ≤ q := by
        simp only [pyNumOf, Option.some_inj] at hcur
        exact_mod_cast hcur ▸ hq
      have hle : a - q ≤ 0 := by omega
      have hgone :
          (remove_item (pstr k) (pint q) s).1 = dictDel s k := by
        simp [remove_item, hhas, hv, pySub, pyLeZero, hle, dictDel_dictSet]
      rw [hgone]
      have := dictGet_dictDel_self s k hnd
      exact ⟨this, by simp [get_qty, this]⟩
    | pfloat r =>
      have hr : r ≤ (q : ℚ) := by
        simp only [pyNumOf, Option.some_inj] at hcur
        exact hcur ▸ hq
      have hle : r - (q : ℚ) ≤ 0 := by linarith
      have hgone :
          (remove_item (pstr k) (pint q) s).1 = dictDel s k := by
        simp [remove_item, hhas, hv, pySub, pyLeZero, hle, dictDel_dictSet]
      rw [hgone]
      have := dictGet_dictDel_self s k hnd
      exact ⟨this, by simp [get_qty, this]⟩
    | pstr u => simp [pyNumOf] at hcur
    | pnone => simp [pyNumOf] at hcur

/-- Witness for C5: removing 5 from `{a: 3}` deletes the entry. -/
theorem c5_remove_all_absent_witness :
    dictGet (remove_item (pstr "a") (pint 5) [("a", pint 3)]).1 "a" = none ∧
    get_qty (pstr "a") (remove_item (pstr "a") (pint 5) [("a", pint 3)]).1 =
      pint 0 :=
  c5_remove_all_absent "a" 5 [("a", pint 3)] (by decide) 3 rfl (by norm_num)

theorem check_low_items_subset_keys (t : Int) (s : Store) (res : List String)
    (h : check_low_items t s = some res) : ∀ x ∈ res, x ∈ dictKeys s := by
  induction s generalizing res with
  | nil =>
    simp only [check_low_items, Option.some_inj] at h
    subst h
    simp
  | cons p rest ih =>
    obtain ⟨k, v⟩ := p
    simp only [check_low_items] at h
    cases hlt : pyLtInt v t with
    | none =>
      rw [hlt] at h
      cases h
    | some b =>
      rw [hlt] at h
      cases b with
      | true =>
        obtain ⟨res2, hres2, rfl⟩ := Option.map_eq_some'.mp h
        intro x hx
        rcases List.mem_cons.mp hx with rfl | hx2
        · simp [dictKeys]
        · exact List.mem_cons_of_mem _ (ih res2 hres2 x hx2)
      | false =>
        intro x hx
        exact List.mem_cons_of_mem _ (ih res h x hx)

theorem check_low_items_append_mem (t : Int) (s : Store) (k : String)
    (v : PyVal) (hv : pyLtInt v t = some true) (res : List String)
    (h : check_low_items t (s ++ [(k, v)]) = some res) : k ∈ res := by
  induction s generalizing res with
  | nil =>
    simp only [List.nil_append, check_low_items, hv, Option.map_some',
      Option.some_inj] at h
    subst h
    exact List.mem_singleton_self k
  | cons p rest ih =>
    obtain ⟨k1, v1⟩ := p
    simp only [List.cons_append, check_low_items] at h
    cases hlt : pyLtInt v1 t with
    | none =>
      rw [hlt] at h
      cases h
    | some b =>
      rw [hlt] at h
      cases b with
      | true =>
        obtain ⟨res2, hres2, rfl⟩ := Option.map_eq_some'.mp h
        exact List.mem_cons_of_mem _ (ih res2 hres2)
      | false => exact ih res h

/-- C9: `add_item(item, 0)` on a fresh non-empty string item is accepted by
the validation (`0 ≥ 0` is valid) and creates an entry whose quantity is
`0`.  The item was invisible to `check_low_items t` (for any result the
scan can produce) while absent, but after the call it is listed by every
scan with threshold `t > 0`, and the report prints its `"item -> 0"`
line. -/
theorem c9_add_zero_creates_visible_entry (now : String) (k : String)
    (hk : k ≠ "") (s : Store) (habs : dictGet s k = none)
    (logs : List String) (t : Int) (ht : 0 < t) :
    ∃ s2 logs2, add_item now (pstr k) (pint 0) logs s = some (s2, logs2) ∧
      dictGet s2 k = some (pint 0) ∧
      (∀ res, check_low_items t s = some res → k ∉ res) ∧
      (∀ res2, check_low_items t s2 = some res2 → k ∈ res2) ∧
      (k ++ " -> 0") ∈ print_data s2 := by
  have hhas : dictHasKey s k = false := by
    rw [dictHasKey_eq_isSome, habs]
    rfl
  have hset : dictSet s k (pint 0) = s ++ [(k, pint 0)] :=
    dictSet_of_not_hasKey s k (pint 0) hhas
  refine ⟨s ++ [(k, pint 0)], logs ++ [addLogMsg now 0 k], ?_, ?_, ?_, ?_, ?_⟩
  · have : pyAddInt ((dictGet s k).getD (pint 0)) 0 = some (pint 0) := by
      rw [habs]
      simp [pyAddInt]
    simp [add_item, hk, this, hset]
  · rw [← hset]
    exact dictGet_dictSet_self s k (pint 0)
  · intro res hres hkres
    have hmem := check_low_items_subset_keys t s res hres k hkres
    rw [← dictHasKey_iff_mem_keys] at hmem
    rw [hhas] at hmem
    cases hmem
  · intro res2 h2
    exact check_low_items_append_mem t s k (pint 0) (by simp [pyLtInt, ht])
      res2 h2
  · have hline : k ++ " -> 0" = (k ++ " -> ") ++ pyStrOf (pint 0) := by
      rw [String.append_assoc]
      rfl
    rw [hline]
    simp only [print_data, hset, List.map_append, List.map_cons]
    exact List.mem_cons_of_mem _ (List.mem_append_right _ (by simp))

/-- Witness for C9: item `"x"` added at 0 to the empty store, threshold 5. -/
theorem c9_add_zero_creates_visible_entry_witness :
    ∃ s2 logs2, add_item "" (pstr "x") (pint 0) [] [] = some (s2, logs2) ∧
      dictGet s2 "x" = some (pint 0) ∧
      (∀ res, check_low_items 5 ([] : Store) = some res → "x" ∉ res) ∧
      (∀ res2, check_low_items 5 s2 = some res2 → "x" ∈ res2) ∧
      ("x" ++ " -> 0") ∈ print_data s2 :=
  c9_add_zero_creates_visible_entry "" "x" (by decide) [] rfl [] 5 (by decide)

/-- C10 counterexample: on the store `{a: -5}` (a dict state the loader
accepts verbatim from a persisted file), `remove_item("a", -3)` computes
`-5 - (-3) = -2 ≤ 0` and therefore deletes the entry — the claim's promised
stored quantity `q - qty = -2` is NOT what results; the key is gone. -/
theorem c10_counterexample :
    (remove_item (pstr "a") (pint (-3)) [("a", pint (-5))]).1 = [] ∧
    dictGet (remove_item (pstr "a") (pint (-3)) [("a", pint (-5))]).1 "a" ≠
      some (pint (-2)) := by
  constructor
  · rfl
  · intro h
    cases h

/-- C10 amended: for an item present with a non-negative numeric quantity
`q` (every quantity an add/int-remove sequence can produce) and a negative
integer `qty`, `remove_item` accepts the call and stores `q - qty`, a
strict increase of the stock; when `q - qty ≤ 0` (possible only for
`q < 0`) the entry is deleted instead. -/
theorem c10_remove_negative_increases (k : String) (s : Store) (v : PyVal)
    (q : ℚ) (qty : Int) (hget : dictGet s k = some v)
    (hv : pyNumOf v = some q) (hq : 0 ≤ q) (hqty : qty < 0) :
    pyNumOf (get_qty (pstr k) (remove_item (pstr k) (pint qty) s).1) =
      some (q - (qty : ℚ)) ∧ q < q - (qty : ℚ) := by
  have hhas : dictHasKey s k = true := by
    rw [dictHasKey_eq_isSome, hget]
    rfl
  have hlt : q < q - (qty : ℚ) := by
    have : (qty : ℚ) < 0 := by exact_mod_cast hqty
    linarith
  refine ⟨?_, hlt⟩
  cases v with
  | pint a =>
    have ha : (a : ℚ) = q := by
      simpa [pyNumOf] using hv
    have hpos : ¬ a - qty ≤ 0 := by
      have : 0 ≤ (a : ℚ) := ha ▸ hq
      have ha0 : 0 ≤ a := by exact_mod_cast this
      omega
    have hst : (remove_item (pstr k) (pint qty) s).1 =
        dictSet s k (pint (a - qty)) := by
      simp [remove_item, hhas, hget, pySub, pyLeZero, hpos]
    rw [hst]
    simp only [get_qty, dictGet_dictSet_self, Option.getD_some, pyNumOf,
      Option.some_inj, ← ha]
    push_cast
    ring
  | pfloat r =>
    have hr : r = q := by
      simpa [pyNumOf] using hv
    have hpos : ¬ r - (qty : ℚ) ≤ 0 := by
      have : (qty : ℚ) < 0 := by exact_mod_cast hqty
      rw [hr]
      linarith
    have hst : (remove_item (pstr k) (pint qty) s).1 =
        dictSet s k (pfloat (r - (qty : ℚ))) := by
      simp [remove_item, hhas, hget, pySub, pyLeZero, hpos]
    rw [hst]
    simp [get_qty, dictGet_dictSet_self, pyNumOf, hr]
  | pstr u => simp [pyNumOf] at hv
  | pnone => simp [pyNumOf] at hv

/-- Witness for amended C10: `remove("a", -3)` on `{a: 5}` stores 8. -/
theorem c10_remove_negative_increases_witness :
    pyNumOf (get_qty (pstr "a")
        (remove_item (pstr "a") (pint (-3)) [("a", pint 5)]).1) =
      some ((5 : ℚ) - ((-3 : Int) : ℚ)) ∧
    (5 : ℚ) < (5 : ℚ) - ((-3 : Int) : ℚ) :=
  c10_remove_negative_increases "a" [("a", pint 5)] (pint 5) 5 (-3) rfl rfl
    (by norm_num) (by norm_num)

theorem foldl_dictSet_eq_append {α : Type} (s : List (String × α)) :
    ∀ acc : List (String × α), (dictKeys acc ++ dictKeys s).Nodup →
      s.foldl (fun d p => dictSet d p.1 p.2) acc = acc ++ s := by
  induction s with
  | nil => intro acc _; simp
  | cons p rest ih =>
    intro acc h
    obtain ⟨k, v⟩ := p
    have hshape : dictKeys acc ++ dictKeys ((k, v) :: rest) =
        dictKeys acc ++ k :: dictKeys rest := by
      simp [dictKeys]
    rw [hshape] at h
    obtain ⟨h1, h2, hdisj⟩ := List.nodup_append.mp h
    have hk : dictHasKey acc k = false := by
      have : k ∉ dictKeys acc := fun hmem =>
        hdisj hmem (List.mem_cons_self _ _)
      rcases Bool.eq_false_or_eq_true (dictHasKey acc k) with hb | hb
      · exact absurd ((dictHasKey_iff_mem_keys acc k).mp hb) this
      · exact hb
    have hstep : dictSet acc k v = acc ++ [(k, v)] :=
      dictSet_of_not_hasKey acc k v hk
    rw [List.foldl_cons]
    rw [hstep]
    rw [ih (acc ++ [(k, v)]) ?_]
    · simp
    · have : dictKeys (acc ++ [(k, v)]) ++ dictKeys rest =
          dictKeys acc ++ k :: dictKeys rest := by
        simp [dictKeys]
      rw [this]
      exact h

/-- C3: `save_data(path)` then `load_data(path)` restores exactly the
mapping that was saved — same ordered entry list, hence same key set and
same quantity per key.  The one hypothesis, distinct keys, holds of every
real dict. -/
theorem c3_save_load_roundtrip (file : String) (s : Store) (fs : FileSys)
    (hnd : (dictKeys s).Nodup) :
    (load_data file (save_data file s fs).1).1 = s := by
  simp only [save_data, load_data, dictGet_dictSet_self]
  have h := foldl_dictSet_eq_append s [] (by simpa [dictKeys] using hnd)
  simpa [dictReplay] using h

/-- Witness for C3: the driver's store `{apple: 7, banana: 5}` survives a
save/load through `inventory.json`. -/
theorem c3_save_load_roundtrip_witness :
    (load_data "inventory.json"
        (save_data "inventory.json" [("apple", pint 7), ("banana", pint 5)]
          []).1).1 = [("apple", pint 7), ("banana", pint 5)] :=
  c3_save_load_roundtrip "inventory.json"
    [("apple", pint 7), ("banana", pint 5)] [] (by decide)

/-! ## Invariant lemmas for the reachability claim -/

theorem all_snd_of_dictGet {α : Type} (p : α → Bool) (d : List (String × α))
    (hd : d.all (fun e => p e.2) = true) (k : String) (v : α)
    (h : dictGet d k = some v) : p v = true := by
  induction d with
  | nil => cases h
  | cons e rest ih =>
    obtain ⟨k1, v1⟩ := e
    simp only [List.all_cons, Bool.and_eq_true] at hd
    by_cases hk : k1 = k
    · simp only [dictGet, if_pos hk, Option.some_inj] at h
      subst h
      exact hd.1
    · simp only [dictGet, if_neg hk] at h
      exact ih hd.2 h

theorem all_snd_dictSet {α : Type} (p : α → Bool) (d : List (String × α))
    (hd : d.all (fun e => p e.2) = true) (k : String) (v : α)
    (hv : p v = true) : (dictSet d k v).all (fun e => p e.2) = true := by
  induction d with
  | nil => simp [dictSet, hv]
  | cons e rest ih =>
    obtain ⟨k1, v1⟩ := e
    simp only [List.all_cons, Bool.and_eq_true] at hd
    by_cases hk : k1 = k <;>
      simp [dictSet, hk, hd.1, hd.2, hv, ih hd.2]

theorem all_snd_dictDel {α : Type} (p : α → Bool) (d : List (String × α))
    (hd : d.all (fun e => p e.2) = true) (k : String) :
    (dictDel d k).all (fun e => p e.2) = true := by
  induction d with
  | nil => simp [dictDel]
  | cons e rest ih =>
    obtain ⟨k1, v1⟩ := e
    simp only [List.all_cons, Bool.and_eq_true] at hd
    by_cases hk : k1 = k <;>
      simp [dictDel, hk, hd.1, hd.2, ih hd.2]

theorem all_snd_foldl_dictSet {α : Type} (p : α → Bool)
    (file : List (String × α)) :
    ∀ acc : List (String × α), acc.all (fun e => p e.2) = true →
      file.all (fun e => p e.2) = true →
      (file.foldl (fun d q => dictSet d q.1 q.2) acc).all
        (fun e => p e.2) = true := by
  induction file with
  | nil => intro acc ha _; simpa using ha
  | cons e rest ih =>
    intro acc ha hf
    obtain ⟨k, v⟩ := e
    simp only [List.all_cons, Bool.and_eq_true] at hf
    rw [List.foldl_cons]
    exact ih _ (all_snd_dictSet p acc ha k v hf.1) hf.2

theorem add_item_preserves_good (now : String) (item qty : PyVal)
    (logs : List String) (s : Store) (hs : goodStore s = true)
    (r : Store × List String) (h : add_item now item qty logs s = some r) :
    goodStore r.1 = true := by
  cases item with
  | pstr k =>
    by_cases hk : k = ""
    · simp only [add_item, if_pos hk, Option.some_inj] at h
      subst h
      exact hs
    · cases qty with
      | pint n =>
        by_cases hn : n < 0
        · simp only [add_item, if_neg hk, if_pos hn, Option.some_inj] at h
          subst h
          exact hs
        · cases hv : dictGet s k with
          | none =>
            have hadd : pyAddInt ((dictGet s k).getD (pint 0)) n =
                some (pint (0 + n)) := by
              rw [hv]
              rfl
            simp only [add_item, if_neg hk, if_neg hn, hadd,
              Option.some_inj] at h
            subst h
            exact all_snd_dictSet nonnegIntVal s hs k _
              (by simp only [nonnegIntVal, decide_eq_true_eq]; omega)
          | some v =>
            have hpv : nonnegIntVal v = true :=
              all_snd_of_dictGet nonnegIntVal s hs k v hv
            cases v with
            | pint a =>
              have ha : 0 ≤ a := by
                simpa [nonnegIntVal] using hpv
              have hadd : pyAddInt ((dictGet s k).getD (pint 0)) n =
                  some (pint (a + n)) := by
                rw [hv]
                rfl
              simp only [add_item, if_neg hk, if_neg hn, hadd,
                Option.some_inj] at h
              subst h
              exact all_snd_dictSet nonnegIntVal s hs k _
                (by simp only [nonnegIntVal, decide_eq_true_eq]; omega)
            | pfloat x => simp [nonnegIntVal] at hpv
            | pstr u => simp [nonnegIntVal] at hpv
            | pnone => simp [nonnegIntVal] at hpv
      | pfloat x =>
        simp only [add_item, if_neg hk, Option.some_inj] at h
        subst h
        exact hs
      | pstr u =>
        simp only [add_item, if_neg hk, Option.some_inj] at h
        subst h
        exact hs
      | pnone =>
        simp only [add_item, if_neg hk, Option.some_inj] at h
        subst h
        exact hs
  | pint n =>
    simp only [add_item, Option.some_inj] at h
    subst h
    exact hs
  | pfloat x =>
    simp only [add_item, Option.some_inj] at h
    subst h
    exact hs
  | pnone =>
    simp only [add_item, Option.some_inj] at h
    subst h
    exact hs

theorem remove_item_preserves_good (item qty : PyVal) (s : Store)
    (hq : ∀ x : ℚ, qty ≠ pfloat x) (hs : goodStore s = true) :
    goodStore (remove_item item qty s).1 = true := by
  cases item with
  | pstr k =>
    by_cases hhas : dictHasKey s k = true
    · have hsome : (dictGet s k).isSome = true := by
        rw [← dictHasKey_eq_isSome]
        exact hhas
      obtain ⟨v, hv⟩ := Option.isSome_iff_exists.mp hsome
      have hpv : nonnegIntVal v = true :=
        all_snd_of_dictGet nonnegIntVal s hs k v hv
      cases v with
      | pint a =>
        have ha : 0 ≤ a := by
          simpa [nonnegIntVal] using hpv
        cases qty with
        | pint m =>
          by_cases hle : a - m ≤ 0
          · have hst : (remove_item (pstr k) (pint m) s).1 = dictDel s k := by
              simp [remove_item, hhas, hv, pySub, pyLeZero, hle,
                dictDel_dictSet]
            rw [hst]
            exact all_snd_dictDel nonnegIntVal s hs k
          · have hst : (remove_item (pstr k) (pint m) s).1 =
                dictSet s k (pint (a - m)) := by
              simp [remove_item, hhas, hv, pySub, pyLeZero, hle]
            rw [hst]
            exact all_snd_dictSet nonnegIntVal s hs k _
              (by simp only [nonnegIntVal, decide_eq_true_eq]; omega)
        | pfloat x => exact absurd rfl (hq x)
        | pstr u =>
          have hst : (remove_item (pstr k) (pstr u) s).1 = s := by
            simp [remove_item, hhas, hv, pySub]
          rw [hst]
          exact hs
        | pnone =>
          have hst : (remove_item (pstr k) pnone s).1 = s := by
            simp [remove_item, hhas, hv, pySub]
          rw [hst]
          exact hs
      | pfloat x => simp [nonnegIntVal] at hpv
      | pstr u => simp [nonnegIntVal] at hpv
      | pnone => simp [nonnegIntVal] at hpv
    · have hst : (remove_item (pstr k) qty s).1 = s := by
        simp [remove_item, hhas]
      rw [hst]
      exact hs
  | pint n => exact hs
  | pfloat x => exact hs
  | pnone => exact hs

theorem load_data_preserves_good (file : String) (fs : FileSys)
    (hf : goodFS fs = true) : goodStore (load_data file fs).1 = true := by
  cases hg : dictGet fs file with
  | none => simp [load_data, hg, goodStore]
  | some content =>
    have hc : goodStore content = true :=
      all_snd_of_dictGet goodStore fs hf file content hg
    simp only [load_data, hg]
    exact all_snd_foldl_dictSet nonnegIntVal content [] rfl hc

theorem step_preserves_good (sys : Sys) (op : Op)
    (hop : removeQtyNotFloat op = true) (hs : goodStore sys.store = true)
    (hf : goodFS sys.fs = true) (sys2 : Sys) (h : step sys op = some sys2) :
    goodStore sys2.store = true ∧ goodFS sys2.fs = true := by
  cases op with
  | add item qty =>
    simp only [step] at h
    obtain ⟨r, hr, rfl⟩ := Option.map_eq_some'.mp h
    exact ⟨add_item_preserves_good "" item qty [] sys.store hs r hr, hf⟩
  | remove item qty =>
    simp only [step, Option.some_inj] at h
    subst h
    refine ⟨?_, hf⟩
    apply remove_item_preserves_good item qty sys.store ?_ hs
    intro x hx
    subst hx
    simp [removeQtyNotFloat] at hop
  | load file =>
    simp only [step, Option.some_inj] at h
    subst h
    exact ⟨load_data_preserves_good file sys.fs hf, hf⟩
  | save file =>
    simp only [step, Option.some_inj] at h
    subst h
    exact ⟨hs, all_snd_dictSet goodStore sys.fs hf file sys.store hs⟩

theorem run_good_aux (ops : List Op) :
    ∀ sys0 : Sys, goodStore sys0.store = true → goodFS sys0.fs = true →
      ops.all removeQtyNotFloat = true → ∀ sys : Sys,
      ops.foldlM step sys0 = some sys →
      goodStore sys.store = true ∧ goodFS sys.fs = true := by
  induction ops with
  | nil =>
    intro sys0 hs hf _ sys h
    simp only [List.foldlM_nil, Option.pure_def, Option.some_inj] at h
    subst h
    exact ⟨hs, hf⟩
  | cons op rest ih =>
    intro sys0 hs hf hall sys h
    simp only [List.all_cons, Bool.and_eq_true] at hall
    rw [List.foldlM_cons] at h
    cases hstep : step sys0 op with
    | none =>
      rw [hstep] at h
      cases h
    | some sys1 =>
      rw [hstep] at h
      simp only [Option.bind_eq_bind, Option.some_bind] at h
      obtain ⟨hs1, hf1⟩ :=
        step_preserves_good sys0 op hall.1 hs hf sys1 hstep
      exact ih sys1 hs1 hf1 hall.2 sys h

/-- C1 counterexample: the claim's invariant fails on a reachable state —
starting from the empty store, the single call `add_item("x", 0)` passes
validation and ends with the entry `x ↦ 0`, whose quantity is neither
strictly positive nor removed from the mapping. -/
theorem c1_counterexample :
    run [Op.add (pstr "x") (pint 0)] =
      some { store := [("x", pint 0)], fs := [] } ∧
    strictPosStore [("x", pint 0)] = false := by
  constructor
  · rfl
  · rfl

/-- C1 amended: along any sequence of add / remove / load / save calls
from the empty store in which no `remove` is given a float quantity, every
entry of every reachable store is a non-negative **integer** — but zero is
reachable (see the counterexample), so only `≥ 0`, not `> 0`, is
invariant. -/
theorem c1_reachable_nonneg_int (ops : List Op)
    (hops : ops.all removeQtyNotFloat = true) (sys : Sys)
    (hrun : run ops = some sys) : goodStore sys.store = true :=
  (run_good_aux ops initSys rfl rfl hops sys hrun).1

/-- Witness for amended C1: the source driver's own call sequence (two
adds, one rejected add, two removes, save, load). -/
theorem c1_reachable_nonneg_int_witness :
    goodStore [("apple", pint 7), ("banana", pint 5)] = true :=
  c1_reachable_nonneg_int
    [Op.add (pstr "apple") (pint 10), Op.add (pstr "banana") (pint 5),
     Op.add (pint 123) (pstr "ten"), Op.remove (pstr "apple") (pint 3),
     Op.remove (pstr "orange") (pint 1), Op.save "inventory.json",
     Op.load "inventory.json"]
    (by decide)
    { store := [("apple", pint 7), ("banana", pint 5)],
      fs := [("inventory.json", [("apple", pint 7), ("banana", pint 5)])] }
    rfl
